/-
Verification of the vision-pulse ground-truth annotation store and
true-metrics engine (backend/app/utils/true_metrics.py,
backend/app/routers/validation.py, backend/app/routers/inference.py,
backend/app/schemas/validation.py).

Python strings are modelled as `List Char`, Python floats as `ℚ`
(exact rational arithmetic; Python's `round` is round-half-even, modelled
exactly on rationals), Python ints as `ℤ`/`ℕ`, JSON dicts as structures
with `Option` fields where a key may be absent.
-/
import Mathlib

/-! ### Characters, digits, and Python `int` parsing -/

/-- Decimal value of a digit character, `none` for a non-digit.
Mirrors the digit recognition inside Python `int()`. -/
def charVal (c : Char) : Option ℕ :=
  if c = '0' then some 0 else if c = '1' then some 1
  else if c = '2' then some 2 else if c = '3' then some 3
  else if c = '4' then some 4 else if c = '5' then some 5
  else if c = '6' then some 6 else if c = '7' then some 7
  else if c = '8' then some 8 else if c = '9' then some 9 else none

/-- Is `c` a decimal digit? -/
def isDigitChar (c : Char) : Bool := (charVal c).isSome

/-- The decimal digit character for `d < 10` (clamps above). -/
def digitChar (d : ℕ) : Char :=
  match d with
  | 0 => '0' | 1 => '1' | 2 => '2' | 3 => '3' | 4 => '4'
  | 5 => '5' | 6 => '6' | 7 => '7' | 8 => '8' | _ => '9'

/-- Fuel-driven digit expansion (structural recursion, so that concrete
identifiers evaluate). -/
def natToDigitsAux : ℕ → ℕ → List Char
  | 0, _ => []
  | fuel + 1, n =>
    if n < 10 then [digitChar n]
    else natToDigitsAux fuel (n / 10) ++ [digitChar (n % 10)]

/-- Decimal digit string of a natural number, as produced by Python
`str`/f-string interpolation of a non-negative int. -/
def natToDigits (n : ℕ) : List Char := natToDigitsAux (n + 1) n

/-- Fold a digit string into a number; `none` on any non-digit. -/
def parseNatCore (xs : List Char) : Option ℕ :=
  xs.foldl
    (fun acc c =>
      match acc, charVal c with
      | some a, some d => some (a * 10 + d)
      | _, _ => none)
    (some 0)

/-- Parse a non-empty all-digit string as a natural number. -/
def parseNat (xs : List Char) : Option ℕ :=
  if xs = [] then none else parseNatCore xs

/-- Python `int()` on a stripped string: an optional sign followed by a
non-empty digit string.  (Python additionally tolerates surrounding
whitespace and `_` digit separators; no identifier handled by the router
contains those.) -/
def parseInt (xs : List Char) : Option ℤ :=
  match xs with
  | [] => none
  | c :: rest =>
    if c = '-' then (parseNat rest).map (fun n => -(n : ℤ))
    else if c = '+' then (parseNat rest).map (fun n => (n : ℤ))
    else (parseNat xs).map (fun n => (n : ℤ))

/-! ### Substring search and Python `rsplit(sep, 1)` -/

/-- Boolean list-prefix test. -/
def isPre : List Char → List Char → Bool
  | [], _ => true
  | _ :: _, [] => false
  | a :: as, b :: bs => if a = b then isPre as bs else false

/-- `containsSub sep s` is Python's `sep in s`. -/
def containsSub (sep : List Char) : List Char → Bool
  | [] => isPre sep []
  | c :: rest => isPre sep (c :: rest) || containsSub sep rest

/-- Split at the last occurrence of `sep`, Python `s.rsplit(sep, 1)`
restricted to the found case: returns the parts before and after the
last occurrence, `none` when `sep` does not occur. -/
def splitLastOn (sep : List Char) : List Char → Option (List Char × List Char)
  | [] => if isPre sep [] then some ([], []) else none
  | c :: rest =>
    match splitLastOn sep rest with
    | some (pre, post) => some (c :: pre, post)
    | none =>
      if isPre sep (c :: rest) then some ([], (c :: rest).drop sep.length)
      else none

/-- The literal separator `_box_` used by the box addressing scheme. -/
def sepList : List Char := ['_', 'b', 'o', 'x', '_']

/-- `f"{image_id}_box_{idx}"` (inference.py line 186, validation.py line 297). -/
def formatBoxId (image_id : List Char) (i : ℕ) : List Char :=
  image_id ++ sepList ++ natToDigits i

/-- Parsing a box identifier as the validation router does (lines 93-94):
split on the last `_box_`, read the trailing segment with `int()`. -/
def parseBoxId (box_id : List Char) : Option (List Char × ℤ) :=
  match splitLastOn sepList box_id with
  | none => none
  | some (pre, post) =>
    match parseInt post with
    | none => none
    | some n => some (pre, n)

/-! ### Python `round`: round-half-even on rationals -/

/-- Round to the nearest integer, ties to the even integer
(Python's `round` semantics). -/
def roundHalfEven (q : ℚ) : ℤ :=
  if q - ⌊q⌋ < 1 / 2 then ⌊q⌋
  else if 1 / 2 < q - ⌊q⌋ then ⌊q⌋ + 1
  else if 2 ∣ ⌊q⌋ then ⌊q⌋ else ⌊q⌋ + 1

/-- Python `round(q, d)`. -/
def roundTo (d : ℕ) (q : ℚ) : ℚ :=
  (roundHalfEven (q * 10 ^ d) : ℚ) / 10 ^ d

/-! ### Data model (schemas/validation.py) -/

/-- `GroundTruthBox` (schemas/validation.py lines 43-67).  The box dict as
stored in the session JSON; `box_id`, `verified_at` and `notes` may be
absent/None.  The verification timestamp is an opaque value. -/
structure GTBox where
  x1 : ℚ
  y1 : ℚ
  x2 : ℚ
  y2 : ℚ
  confidence : ℚ
  label : List Char
  class_id : ℤ
  box_id : Option (List Char) := none
  is_verified : Bool := false
  is_correct : Bool := true
  is_manual : Bool := false
  verified_at : Option ℕ := none
  notes : Option (List Char) := none
  deriving DecidableEq

/-- The raw detector metrics dict (`yolo_metrics`), keys may be absent:
`.get('avg_confidence', 0.0)` etc. -/
structure YoloMetrics where
  avg_confidence : Option ℚ := none
  box_count : Option ℤ := none
  fps : Option ℚ := none
  deriving DecidableEq

/-- `TrueMetrics` (schemas/validation.py lines 79-104). -/
structure TrueMetrics where
  true_positives : ℕ
  false_positives : ℕ
  false_negatives : ℕ
  total_verified : ℕ
  precision : ℚ
  «recall» : ℚ
  f1_score : ℚ
  false_positive_rate : ℚ
  yolo_avg_confidence : ℚ
  yolo_box_count : ℤ
  yolo_fps : ℚ
  deriving DecidableEq

/-- One image entry of a stored session (inference.py lines 201-206). -/
structure ImageRecord where
  image_id : List Char
  boxes : List GTBox
  yolo_metrics : YoloMetrics
  deriving DecidableEq

/-- A stored session document (one JSON file per session id). -/
structure Session where
  session_id : List Char
  images : List ImageRecord
  true_metrics : Option TrueMetrics := none
  deriving DecidableEq

/-- A single correction entry, `BoxValidation`
(schemas/validation.py lines 10-30). -/
structure BoxValidation where
  box_id : List Char
  is_correct : Bool
  confidence_override : Option ℚ := none
  notes : Option (List Char) := none
  deriving DecidableEq

/-! ### calculate_true_metrics (utils/true_metrics.py lines 14-99)

Each helper below embeds one line of the Python function. -/

/-- `verified_boxes = [b for b in boxes if b.is_verified]` (line 32). -/
def verifiedOf (boxes : List GTBox) : List GTBox :=
  boxes.filter (fun b => b.is_verified)

/-- `true_positives = sum(1 for b in verified_boxes if b.is_correct)` (line 52). -/
def tpOf (boxes : List GTBox) : ℕ :=
  (verifiedOf boxes).countP (fun b => b.is_correct)

/-- `false_positives = sum(1 for b in verified_boxes if not b.is_correct and not b.is_manual)` (line 55). -/
def fpOf (boxes : List GTBox) : ℕ :=
  (verifiedOf boxes).countP (fun b => !b.is_correct && !b.is_manual)

/-- `false_negatives = sum(1 for b in boxes if b.is_manual and not b.is_verified)` (line 59): counted over ALL boxes. -/
def fnOf (boxes : List GTBox) : ℕ :=
  boxes.countP (fun b => b.is_manual && !b.is_verified)

/-- `total_verified = len(verified_boxes)` (line 62). -/
def tvOf (boxes : List GTBox) : ℕ := (verifiedOf boxes).length

/-- Precision before rounding (lines 66-69). -/
def precisionOf (boxes : List GTBox) : ℚ :=
  if 0 < tpOf boxes + fpOf boxes then
    (tpOf boxes : ℚ) / ((tpOf boxes : ℚ) + (fpOf boxes : ℚ))
  else 0

/-- Recall before rounding (lines 73-76). -/
def recallOf (boxes : List GTBox) : ℚ :=
  if 0 < tpOf boxes + fnOf boxes then
    (tpOf boxes : ℚ) / ((tpOf boxes : ℚ) + (fnOf boxes : ℚ))
  else if tpOf boxes = 0 then 0 else 1

/-- F1 before rounding (lines 79-82). -/
def f1Of (boxes : List GTBox) : ℚ :=
  if 0 < precisionOf boxes + recallOf boxes then
    2 * (precisionOf boxes * recallOf boxes) / (precisionOf boxes + recallOf boxes)
  else 0

/-- False-positive rate before rounding (line 85). -/
def fpRateOf (boxes : List GTBox) : ℚ :=
  if 0 < tvOf boxes then (fpOf boxes : ℚ) / (tvOf boxes : ℚ) * 100 else 0

/-- `calculate_true_metrics(boxes, yolo_metrics)` (lines 14-99). -/
def calculate_true_metrics (boxes : List GTBox) (yolo_metrics : YoloMetrics) :
    TrueMetrics :=
  if (verifiedOf boxes).isEmpty then
    { true_positives := 0
      false_positives := 0
      false_negatives := 0
      total_verified := 0
      precision := 0
      «recall» := 0
      f1_score := 0
      false_positive_rate := 0
      yolo_avg_confidence := yolo_metrics.avg_confidence.getD 0
      yolo_box_count := yolo_metrics.box_count.getD 0
      yolo_fps := yolo_metrics.fps.getD 0 }
  else
    { true_positives := tpOf boxes
      false_positives := fpOf boxes
      false_negatives := fnOf boxes
      total_verified := tvOf boxes
      precision := roundTo 3 (precisionOf boxes)
      «recall» := roundTo 3 (recallOf boxes)
      f1_score := roundTo 3 (f1Of boxes)
      false_positive_rate := roundTo 1 (fpRateOf boxes)
      yolo_avg_confidence := yolo_metrics.avg_confidence.getD 0
      yolo_box_count := yolo_metrics.box_count.getD 0
      yolo_fps := yolo_metrics.fps.getD 0 }

/-! ### The validation batch loop (routers/validation.py lines 86-161) -/

/-- `if validation.notes:` — Python truthiness of an optional string. -/
def notesTruthy : Option (List Char) → Bool
  | none => false
  | some s => !s.isEmpty

/-- The in-place box update of validation.py lines 105-110: sets
`is_verified`/`is_correct`, overwrites `confidence` only when an override
is supplied, overwrites `notes` only when truthy.  No other key (in
particular `verified_at`) is written. -/
def applyValidationToBox (v : BoxValidation) (b : GTBox) : GTBox :=
  { b with
    is_verified := true
    is_correct := v.is_correct
    confidence := match v.confidence_override with
      | some c => c
      | none => b.confidence
    notes := if notesTruthy v.notes then v.notes else b.notes }

/-- Inner loop of lines 102-113: update the first box whose stored
`box_id` equals the correction's id, then break.  Returns the new list
and whether a box was updated. -/
def updateFirstBox (v : BoxValidation) : List GTBox → List GTBox × Bool
  | [] => ([], false)
  | b :: rest =>
    if b.box_id = some v.box_id then (applyValidationToBox v b :: rest, true)
    else
      let r := updateFirstBox v rest
      (b :: r.1, r.2)

/-- Outer loop of lines 99-114: find the first image whose `image_id`
equals the parsed id, run the inner loop on it, then break.  Images after
the first match are untouched. -/
def updateSessionImages (tgt : List Char) (v : BoxValidation) :
    List ImageRecord → List ImageRecord
  | [] => []
  | img :: rest =>
    if img.image_id = tgt then
      { img with boxes := (updateFirstBox v img.boxes).1 } :: rest
    else img :: updateSessionImages tgt v rest

/-- One iteration of the `for validation in validation_req.validations`
loop (lines 86-121).  `none` models the uncaught `ValueError` from
`int(...)` on the trailing segment, re-raised as an HTTP error that aborts
the request before anything is saved.  A `box_id` without `_box_` falls
through the `if` silently; a parsed id matching no image (or no box) only
prints a warning and the loop continues. -/
def applyCorrection (imgs : List ImageRecord) (v : BoxValidation) :
    Option (List ImageRecord) :=
  if containsSub sepList v.box_id then
    match splitLastOn sepList v.box_id with
    | none => some imgs
    | some (pre, post) =>
      match parseInt post with
      | none => none
      | some _ => some (updateSessionImages pre v imgs)
  else some imgs

/-- The whole correction loop over a batch, aborting at the first hard
failure. -/
def applyBatch (imgs : List ImageRecord) : List BoxValidation →
    Option (List ImageRecord)
  | [] => some imgs
  | v :: vs =>
    match applyCorrection imgs v with
    | none => none
    | some imgs' => applyBatch imgs' vs

/-- All boxes of the session, in image order (lines 124-127). -/
def allBoxes (imgs : List ImageRecord) : List GTBox :=
  imgs.flatMap (fun i => i.boxes)

/-- `session_data['images'][-1].get('yolo_metrics', {})` when the image
list is non-empty, else `{}` (lines 74-78). -/
def lastYolo (imgs : List ImageRecord) : YoloMetrics :=
  match imgs.getLast? with
  | some img => img.yolo_metrics
  | none => {}

/-- The stored session after a `POST /validate/{session_id}` request
(lines 62-172): on a hard failure the exception fires before the save, so
the stored document is unchanged; on success all updates, the recomputed
session-level metrics, and the save happen together. -/
def validateDetections (s : Session) (vs : List BoxValidation) : Session :=
  match applyBatch s.images vs with
  | none => s
  | some imgs' =>
    { session_id := s.session_id
      images := imgs'
      true_metrics := some (calculate_true_metrics (allBoxes imgs') (lastYolo s.images)) }

/-! ### add_manual_box (validation.py lines 289-326) -/

/-- The box-dict mutation of `add_manual_box` (validation.py lines
300-304): assign the fresh id and force the manual/verified/correct
flags. -/
def manualizeBox (box : GTBox) (image_id : List Char) (count : ℕ) : GTBox :=
  { box with
    box_id := some (formatBoxId image_id count)
    is_manual := true
    is_verified := true
    is_correct := true }

/-- The image loop of `add_manual_box`: first image matching `image_id`
receives one appended box with `box_id = f"{image_id}_box_{len(boxes)}"`,
`is_manual = is_verified = is_correct = True`; `none` models the 404
`Image not found in session`. -/
def addManualImages (image_id : List Char) (box : GTBox) :
    List ImageRecord → Option (List ImageRecord × List Char)
  | [] => none
  | img :: rest =>
    if img.image_id = image_id then
      some
        ({ img with boxes := img.boxes ++ [manualizeBox box image_id img.boxes.length] } :: rest,
          formatBoxId image_id img.boxes.length)
    else (addManualImages image_id box rest).map (fun r => (img :: r.1, r.2))

/-! ### delete_box (validation.py lines 385-427) -/

/-- Error outcomes of `delete_box`. -/
inductive DeleteErr where
  | imageNotFound
  | boxNotFound
  deriving DecidableEq

/-- The image loop of `delete_box`: in the first image matching
`image_id`, keep only boxes whose `box_id` differs (a list comprehension,
so every box bearing the id is removed); success iff the count dropped.
Image absent → `imageNotFound` (404); image found, nothing removed →
`boxNotFound` (404). -/
def deleteBox (image_id box_id : List Char) :
    List ImageRecord → Except DeleteErr (List ImageRecord)
  | [] => .error .imageNotFound
  | img :: rest =>
    if img.image_id = image_id then
      let boxes' := img.boxes.filter (fun b => ¬ b.box_id = some box_id)
      if boxes'.length < img.boxes.length then
        .ok ({ img with boxes := boxes' } :: rest)
      else .error .boxNotFound
    else (deleteBox image_id box_id rest).map (fun l => img :: l)

/-- A correction whose `box_id` contains `_box_` but whose trailing
segment is rejected by `int()` — the only shape that aborts the batch. -/
def hardFail (v : BoxValidation) : Bool :=
  match splitLastOn sepList v.box_id with
  | none => false
  | some (_, post) => (parseInt post).isNone

/-! ### Concrete instances used in witnesses and counterexamples -/

/-- A box with fixed geometry; only the identification/verification
fields vary in the examples. -/
def mkBox (bid : Option (List Char)) (conf : ℚ) (ver cor man : Bool) : GTBox :=
  { x1 := 0, y1 := 0, x2 := 1, y2 := 1, confidence := conf,
    label := ['c', 'a', 't'], class_id := 0, box_id := bid,
    is_verified := ver, is_correct := cor, is_manual := man }

/-- Example image id `img`. -/
def idImg : List Char := ['i', 'm', 'g']

/-- A session with one image `img` holding one unverified detector box
`img_box_0`. -/
def exSession1 : Session :=
  { session_id := ['s'],
    images := [{ image_id := idImg,
                 boxes := [mkBox (some (formatBoxId idImg 0)) 1 false true false],
                 yolo_metrics := {} }] }

/-- The image list of `exSession1` after `img_box_0` is marked correct. -/
def exImages1' : List ImageRecord :=
  [{ image_id := idImg,
     boxes := [mkBox (some (formatBoxId idImg 0)) 1 true true false],
     yolo_metrics := {} }]

/-- A valid correction for `img_box_0`. -/
def vGood : BoxValidation := { box_id := formatBoxId idImg 0, is_correct := true }

/-- A correction whose parsed image id `nope` matches no image. -/
def vNoImage : BoxValidation :=
  { box_id := formatBoxId ['n', 'o', 'p', 'e'] 0, is_correct := true }

/-- A correction whose box id `img_box_x` has a non-numeric trailing
segment. -/
def vBadInt : BoxValidation :=
  { box_id := idImg ++ sepList ++ ['x'], is_correct := true }

/-- An unverified detector box `img_box_0` of confidence 0. -/
def boxMain : GTBox := mkBox (some (formatBoxId idImg 0)) 0 false true false

/-- A verified detector box `img_box_1` of confidence 1. -/
def boxOther : GTBox := mkBox (some (formatBoxId idImg 1)) 1 true true false

/-- One image `img` with one unverified box `img_box_0` of confidence 0. -/
def exImages5 : List ImageRecord :=
  [{ image_id := idImg, boxes := [boxMain], yolo_metrics := {} }]

/-- A correction for `img_box_0` carrying a confidence override of 1. -/
def vA : BoxValidation :=
  { box_id := formatBoxId idImg 0, is_correct := true, confidence_override := some 1 }

/-- A correction for `img_box_0` carrying no confidence override. -/
def vB : BoxValidation := { box_id := formatBoxId idImg 0, is_correct := true }

/-- A manual box that was never verified. -/
def manualUnverified : GTBox := mkBox none 1 false true true

/-- Two boxes: one verified correct detection and one unverified manual
box. -/
def wBoxes3 : List GTBox :=
  [mkBox (some (formatBoxId idImg 0)) 1 true true false, manualUnverified]

/-- An image `img` holding two distinct boxes that share the identifier
`img_box_1` (reachable by deleting `img_box_0` and re-adding a box, since
indices are re-derived from the current length). -/
def exImagesDup : List ImageRecord :=
  [{ image_id := idImg,
     boxes := [mkBox (some (formatBoxId idImg 1)) 1 false true false,
               mkBox (some (formatBoxId idImg 1)) 1 true true false],
     yolo_metrics := {} }]

/-- An unrelated image `a` with one box. -/
def imgA : ImageRecord :=
  { image_id := ['a'],
    boxes := [mkBox (some (formatBoxId ['a'] 0)) 1 false true false],
    yolo_metrics := {} }

/-- The image `img` with two uniquely-identified boxes. -/
def imgI : ImageRecord :=
  { image_id := idImg, boxes := [boxMain, boxOther], yolo_metrics := {} }

/-- An image list for the delete/add witnesses: an unrelated image `a`
followed by `img` with two uniquely-identified boxes. -/
def exImagesTwo : List ImageRecord := [imgA, imgI]

deriving instance DecidableEq for Except

/-! ### Digit-string lemmas -/

/-- The fuel argument of `natToDigitsAux` is irrelevant once it exceeds `n`. -/
lemma natToDigitsAux_fuel :
    ∀ f₁ f₂ n : ℕ, n < f₁ → n < f₂ → natToDigitsAux f₁ n = natToDigitsAux f₂ n := by
  intro f₁
  induction f₁ with
  | zero => intro f₂ n h₁ _; omega
  | succ g ih =>
    intro f₂ n h₁ h₂
    cases f₂ with
    | zero => omega
    | succ g₂ =>
      by_cases hn : n < 10
      · simp [natToDigitsAux, hn]
      · have hrec : n / 10 < g := by omega
        have hrec₂ : n / 10 < g₂ := by omega
        simp only [natToDigitsAux, if_neg hn]
        rw [ih g₂ (n / 10) hrec hrec₂]

lemma natToDigits_small {n : ℕ} (h : n < 10) : natToDigits n = [digitChar n] := by
  simp [natToDigits, natToDigitsAux, h]

lemma natToDigits_step {n : ℕ} (h : 10 ≤ n) :
    natToDigits n = natToDigits (n / 10) ++ [digitChar (n % 10)] := by
  have h10 : ¬ n < 10 := by omega
  have e : natToDigits n = natToDigitsAux n (n / 10) ++ [digitChar (n % 10)] := by
    simp only [natToDigits, natToDigitsAux, if_neg h10]
  rw [e, natToDigitsAux_fuel n (n / 10 + 1) (n / 10) (by omega) (by omega)]
  rfl

lemma charVal_digitChar {d : ℕ} (h : d < 10) : charVal (digitChar d) = some d := by
  interval_cases d <;> rfl

lemma isDigitChar_digitChar {d : ℕ} (h : d < 10) : isDigitChar (digitChar d) = true := by
  simp [isDigitChar, charVal_digitChar h]

lemma natToDigits_all_digits : ∀ n, (natToDigits n).all isDigitChar = true := by
  intro n
  induction n using Nat.strong_induction_on with
  | _ n ih =>
    by_cases h : n < 10
    · rw [natToDigits_small h]
      simp [isDigitChar_digitChar h]
    · rw [natToDigits_step (by omega)]
      rw [List.all_append]
      have h1 := ih (n / 10) (by omega)
      have h2 : isDigitChar (digitChar (n % 10)) = true :=
        isDigitChar_digitChar (Nat.mod_lt _ (by omega))
      simp [h1, h2]

lemma natToDigits_ne_nil (n : ℕ) : natToDigits n ≠ [] := by
  by_cases h : n < 10
  · rw [natToDigits_small h]; simp
  · rw [natToDigits_step (by omega)]; simp

lemma parseNatCore_natToDigits : ∀ n, parseNatCore (natToDigits n) = some n := by
  intro n
  induction n using Nat.strong_induction_on with
  | _ n ih =>
    by_cases h : n < 10
    · rw [natToDigits_small h]
      simp [parseNatCore, charVal_digitChar h]
    · rw [natToDigits_step (by omega)]
      have hmod : n % 10 < 10 := Nat.mod_lt _ (by omega)
      simp only [parseNatCore, List.foldl_append]
      have h1 := ih (n / 10) (by omega)
      simp only [parseNatCore] at h1
      rw [h1]
      simp only [List.foldl_cons, List.foldl_nil, charVal_digitChar hmod]
      congr 1
      omega

lemma parseNat_natToDigits (n : ℕ) : parseNat (natToDigits n) = some n := by
  simp [parseNat, natToDigits_ne_nil n, parseNatCore_natToDigits n]

lemma digit_ne_of_not_digit {c d : Char} (hc : isDigitChar c = true)
    (hd : isDigitChar d = false) : ¬ d = c := by
  intro e
  rw [e, hc] at hd
  simp at hd

lemma parseInt_of_digits {zs : List Char} (h1 : zs.all isDigitChar = true)
    (h2 : zs ≠ []) : parseInt zs = (parseNat zs).map (fun n => (n : ℤ)) := by
  cases zs with
  | nil => exact absurd rfl h2
  | cons c rest =>
    have hc : isDigitChar c = true := by
      simp only [List.all_cons, Bool.and_eq_true] at h1
      exact h1.1
    have hminus : ¬ c = '-' := by
      intro e; rw [e] at hc
      exact absurd hc (by decide)
    have hplus : ¬ c = '+' := by
      intro e; rw [e] at hc
      exact absurd hc (by decide)
    simp [parseInt, hminus, hplus]

lemma parseInt_natToDigits (n : ℕ) : parseInt (natToDigits n) = some (n : ℤ) := by
  rw [parseInt_of_digits (natToDigits_all_digits n) (natToDigits_ne_nil n)]
  rw [parseNat_natToDigits n]
  rfl

/-! ### Last-occurrence split lemmas -/

lemma isPre_append_self : ∀ (s ys : List Char), isPre s (s ++ ys) = true := by
  intro s
  induction s with
  | nil => intro ys; rfl
  | cons a as ih => intro ys; simp [isPre, ih ys]

lemma splitLastOn_of_not_contains {sep : List Char} :
    ∀ (zs : List Char), containsSub sep zs = false → splitLastOn sep zs = none := by
  intro zs
  induction zs with
  | nil =>
    intro h
    simp only [containsSub] at h
    simp [splitLastOn, h]
  | cons c rest ih =>
    intro h
    simp only [containsSub, Bool.or_eq_false_iff] at h
    rw [splitLastOn, ih h.2]
    simp [h.1]

lemma splitLastOn_append (sep : List Char) (c₀ : Char) (s₀ : List Char)
    (hsep : sep = c₀ :: s₀) :
    ∀ (xs ys : List Char), containsSub sep (s₀ ++ ys) = false →
      splitLastOn sep (xs ++ sep ++ ys) = some (xs, ys) := by
  intro xs
  induction xs with
  | nil =>
    intro ys h
    subst hsep
    simp only [List.nil_append]
    rw [List.cons_append, splitLastOn]
    rw [splitLastOn_of_not_contains (s₀ ++ ys) h]
    rw [← List.cons_append, isPre_append_self]
    simp [List.drop_left]
  | cons x xs' ih =>
    intro ys h
    rw [List.cons_append, List.cons_append, splitLastOn, ih ys h]

/-- A candidate occurrence dies at its first character when that
character differs from the separator's head `'_'`. -/
lemma isPre_sep_head_ne {c : Char} (hne : ¬ '_' = c) (t : List Char) :
    isPre sepList (c :: t) = false := by
  simp [sepList, isPre, hne]

/-- Digit strings contain no occurrence of `_box_`. -/
lemma not_contains_sep_of_digits :
    ∀ {zs : List Char}, zs.all isDigitChar = true → containsSub sepList zs = false := by
  intro zs
  induction zs with
  | nil => intro _; rfl
  | cons c rest ih =>
    intro h
    simp only [List.all_cons, Bool.and_eq_true] at h
    have hne : ¬ '_' = c := digit_ne_of_not_digit h.1 (by rfl)
    simp only [containsSub, isPre_sep_head_ne hne, Bool.false_or]
    exact ih h.2

/-- `_box_` does not occur in `box_<digits>`, the region after the
intended separator of a formatted box id. -/
lemma not_contains_sep_boxtail {ds : List Char} (h : ds.all isDigitChar = true) :
    containsSub sepList ('b' :: 'o' :: 'x' :: '_' :: ds) = false := by
  have hd : containsSub sepList ds = false := not_contains_sep_of_digits h
  have h4 : isPre sepList ('_' :: ds) = false := by
    cases ds with
    | nil => rfl
    | cons c rest =>
      simp only [List.all_cons, Bool.and_eq_true] at h
      have hne : ¬ 'b' = c := digit_ne_of_not_digit h.1 (by rfl)
      show isPre ['_', 'b', 'o', 'x', '_'] ('_' :: c :: rest) = false
      simp [isPre, hne]
  have h1 : isPre sepList ('b' :: 'o' :: 'x' :: '_' :: ds) = false :=
    isPre_sep_head_ne (by decide) _
  have h2 : isPre sepList ('o' :: 'x' :: '_' :: ds) = false :=
    isPre_sep_head_ne (by decide) _
  have h3 : isPre sepList ('x' :: '_' :: ds) = false :=
    isPre_sep_head_ne (by decide) _
  simp only [containsSub, h1, h2, h3, h4, hd, Bool.false_or, Bool.or_false]

/-- C4: For every image_id string not containing the literal substring
`_box_` and every non-negative integer i, parsing the formatted box
identifier `<image_id>_box_<i>` — splitting on the last occurrence of
`_box_` and reading the trailing segment as an integer — yields exactly
(image_id, i). -/
theorem boxid_roundtrip (image_id : List Char) (i : ℕ)
    (h : containsSub sepList image_id = false) :
    parseBoxId (formatBoxId image_id i) = some (image_id, (i : ℤ)) := by
  have hsplit : splitLastOn sepList (image_id ++ sepList ++ natToDigits i) =
      some (image_id, natToDigits i) :=
    splitLastOn_append sepList '_' ['b', 'o', 'x', '_'] (by rfl)
      image_id (natToDigits i)
      (not_contains_sep_boxtail (natToDigits_all_digits i))
  simp only [parseBoxId, formatBoxId, hsplit, parseInt_natToDigits i]

/-- C4 witness: the round trip at image id `img` and index 12. -/
theorem boxid_roundtrip_witness :
    containsSub sepList ['i', 'm', 'g'] = false ∧
      parseBoxId (formatBoxId ['i', 'm', 'g'] 12) =
        some (['i', 'm', 'g'], (12 : ℤ)) :=
  ⟨by decide, boxid_roundtrip ['i', 'm', 'g'] 12 (by decide)⟩

/-! ### Rounding lemmas -/

lemma roundHalfEven_nonneg {q : ℚ} (h : 0 ≤ q) : 0 ≤ roundHalfEven q := by
  have hf : (0 : ℤ) ≤ ⌊q⌋ := Int.floor_nonneg.mpr h
  rw [roundHalfEven]
  split_ifs <;> omega

lemma roundHalfEven_le {q : ℚ} {n : ℤ} (h : q ≤ n) : roundHalfEven q ≤ n := by
  have hfn : ⌊q⌋ ≤ n := by
    have := Int.floor_le_floor h
    rwa [Int.floor_intCast] at this
  by_cases he : ⌊q⌋ = n
  · have hq : q = (n : ℚ) := by
      refine le_antisymm h ?_
      rw [← he]
      exact Int.floor_le q
    rw [roundHalfEven, if_pos]
    · exact hfn
    · rw [hq, Int.floor_intCast]
      norm_num
  · have hlt : ⌊q⌋ ≤ n - 1 := by omega
    rw [roundHalfEven]
    split_ifs <;> omega

lemma roundHalfEven_intCast (n : ℤ) : roundHalfEven (n : ℚ) = n := by
  rw [roundHalfEven, Int.floor_intCast, if_pos]
  norm_num

lemma roundTo_nonneg {q : ℚ} (d : ℕ) (h : 0 ≤ q) : 0 ≤ roundTo d q := by
  rw [roundTo]
  apply div_nonneg
  · exact_mod_cast roundHalfEven_nonneg (by positivity)
  · positivity

lemma roundTo_le {q : ℚ} (d n : ℕ) (h : q ≤ n) : roundTo d q ≤ n := by
  rw [roundTo, div_le_iff (by positivity)]
  have h1 : q * 10 ^ d ≤ ((n : ℤ) * 10 ^ d : ℤ) := by
    push_cast
    exact mul_le_mul_of_nonneg_right h (by positivity)
  have h2 := roundHalfEven_le h1
  calc ((roundHalfEven (q * 10 ^ d) : ℤ) : ℚ) ≤ (((n : ℤ) * 10 ^ d : ℤ) : ℚ) := by
        exact_mod_cast h2
    _ = (n : ℚ) * 10 ^ d := by push_cast; ring

lemma roundTo_zero (d : ℕ) : roundTo d 0 = 0 := by
  rw [roundTo, zero_mul]
  rw [show (0 : ℚ) = ((0 : ℤ) : ℚ) by norm_num, roundHalfEven_intCast]
  norm_num

lemma roundTo_one (d : ℕ) : roundTo d 1 = 1 := by
  rw [roundTo, one_mul]
  rw [show ((10 : ℚ) ^ d) = (((10 ^ d : ℤ)) : ℚ) by push_cast; ring, roundHalfEven_intCast]
  rw [div_self]
  positivity

/-! ### Counting lemmas for the metric bounds -/

lemma countP_split_le (p q : GTBox → Bool) :
    ∀ l : List GTBox, l.countP p + l.countP (fun b => !p b && q b) ≤ l.length := by
  intro l
  induction l with
  | nil => simp
  | cons b t ih =>
    by_cases hb : p b <;> by_cases hq : q b <;>
      simp [List.countP_cons, hb, hq] <;> omega

lemma tp_add_fp_le_tv (boxes : List GTBox) : tpOf boxes + fpOf boxes ≤ tvOf boxes :=
  countP_split_le (fun b => b.is_correct) (fun b => !b.is_manual) (verifiedOf boxes)

lemma fp_le_tv (boxes : List GTBox) : fpOf boxes ≤ tvOf boxes :=
  List.countP_le_length _

/-! ### Range lemmas for the unrounded metric values -/

lemma precisionOf_mem (boxes : List GTBox) :
    0 ≤ precisionOf boxes ∧ precisionOf boxes ≤ 1 := by
  rw [precisionOf]
  split_ifs with h
  · have hpos : (0 : ℚ) < (tpOf boxes : ℚ) + (fpOf boxes : ℚ) := by exact_mod_cast h
    constructor
    · positivity
    · rw [div_le_one hpos]
      have : (0 : ℚ) ≤ (fpOf boxes : ℚ) := by positivity
      linarith
  · norm_num

lemma recallOf_mem (boxes : List GTBox) :
    0 ≤ recallOf boxes ∧ recallOf boxes ≤ 1 := by
  rw [recallOf]
  split_ifs with h h0
  · have hpos : (0 : ℚ) < (tpOf boxes : ℚ) + (fnOf boxes : ℚ) := by exact_mod_cast h
    constructor
    · positivity
    · rw [div_le_one hpos]
      have : (0 : ℚ) ≤ (fnOf boxes : ℚ) := by positivity
      linarith
  · norm_num
  · norm_num

lemma f1Of_mem (boxes : List GTBox) : 0 ≤ f1Of boxes ∧ f1Of boxes ≤ 1 := by
  obtain ⟨hp0, hp1⟩ := precisionOf_mem boxes
  obtain ⟨hr0, hr1⟩ := recallOf_mem boxes
  rw [f1Of]
  split_ifs with h
  · constructor
    · apply div_nonneg
      · have := mul_nonneg hp0 hr0
        linarith
      · linarith
    · rw [div_le_one h]
      nlinarith [mul_nonneg (sub_nonneg.mpr hp1) hr0, mul_nonneg (sub_nonneg.mpr hr1) hp0]
  · norm_num

lemma fpRateOf_mem (boxes : List GTBox) :
    0 ≤ fpRateOf boxes ∧ fpRateOf boxes ≤ 100 := by
  rw [fpRateOf]
  split_ifs with h
  · have htv : (0 : ℚ) < (tvOf boxes : ℚ) := by exact_mod_cast h
    have hfp : (fpOf boxes : ℚ) ≤ (tvOf boxes : ℚ) := by exact_mod_cast fp_le_tv boxes
    constructor
    · positivity
    · have hdiv : (fpOf boxes : ℚ) / (tvOf boxes : ℚ) ≤ 1 := by
        rw [div_le_one htv]; exact hfp
      nlinarith [div_nonneg (show (0:ℚ) ≤ (fpOf boxes : ℚ) by positivity) (le_of_lt htv)]
  · norm_num

lemma roundTo_le_one {q : ℚ} (d : ℕ) (h : q ≤ 1) : roundTo d q ≤ 1 := by
  have := roundTo_le d 1 (by exact_mod_cast h)
  exact_mod_cast this

lemma roundTo_le_hundred {q : ℚ} (d : ℕ) (h : q ≤ 100) : roundTo d q ≤ 100 := by
  have := roundTo_le d 100 (by exact_mod_cast h)
  exact_mod_cast this

/-! ### Claims about calculate_true_metrics -/

/-- C2 counterexample: on a list holding a single unverified manual box,
`calculate_true_metrics` takes the no-verification early return and
reports `false_negatives = 0`, not the count (= 1) of manual unverified
boxes. -/
theorem false_negative_count_counterexample :
    ¬ ((calculate_true_metrics [manualUnverified] {}).false_negatives =
        [manualUnverified].countP (fun b => b.is_manual && !b.is_verified)) := by
  decide

/-- C2 amended: whenever at least one box is verified, the returned
`false_negatives` equals the number of boxes in the whole input list
(verified or not) with is_manual=true and is_verified=false; when no box
is verified the early return reports 0. -/
theorem false_negative_count_conditional (boxes : List GTBox) (ym : YoloMetrics) :
    (calculate_true_metrics boxes ym).false_negatives =
      if (verifiedOf boxes).isEmpty then 0
      else boxes.countP (fun b => b.is_manual && !b.is_verified) := by
  rw [calculate_true_metrics]
  by_cases h : (verifiedOf boxes).isEmpty <;> simp [h, fnOf]

/-- C3: with at least one verified box, recall is the rounded ratio
TP/(TP+FN) when TP+FN > 0, and otherwise 1.0 exactly when TP > 0
(vacuous, since TP + FN = 0 forces TP = 0) and 0.0 when TP = 0. -/
theorem recall_formula (boxes : List GTBox) (ym : YoloMetrics)
    (h : (verifiedOf boxes).isEmpty = false) :
    (0 < tpOf boxes + fnOf boxes →
      (calculate_true_metrics boxes ym).«recall» =
        roundTo 3 ((tpOf boxes : ℚ) / ((tpOf boxes : ℚ) + (fnOf boxes : ℚ)))) ∧
    (tpOf boxes + fnOf boxes = 0 → 0 < tpOf boxes →
      (calculate_true_metrics boxes ym).«recall» = 1) ∧
    (tpOf boxes + fnOf boxes = 0 → tpOf boxes = 0 →
      (calculate_true_metrics boxes ym).«recall» = 0) := by
  have hfield : (calculate_true_metrics boxes ym).«recall» = roundTo 3 (recallOf boxes) := by
    rw [calculate_true_metrics]
    simp [h]
  refine ⟨?_, ?_, ?_⟩
  · intro hpos
    rw [hfield, recallOf, if_pos hpos]
  · intro h0 hpos
    omega
  · intro h0 h0'
    rw [hfield, recallOf, if_neg (by omega), if_pos h0', roundTo_zero]

/-- C3 witness: one verified correct box plus one unverified manual box
gives TP = 1, FN = 1, and recall = round(1/2, 3). -/
theorem recall_formula_witness :
    (verifiedOf wBoxes3).isEmpty = false ∧ 0 < tpOf wBoxes3 + fnOf wBoxes3 ∧
      (calculate_true_metrics wBoxes3 {}).«recall» =
        roundTo 3 ((tpOf wBoxes3 : ℚ) / ((tpOf wBoxes3 : ℚ) + (fnOf wBoxes3 : ℚ))) :=
  ⟨by decide, by decide, (recall_formula wBoxes3 {} (by decide)).1 (by decide)⟩

/-- C6: every metric returned by `calculate_true_metrics` lies in its
documented range: precision, recall, f1 in [0,1] and
false_positive_rate in [0,100]. -/
theorem metric_ranges (boxes : List GTBox) (ym : YoloMetrics) :
    0 ≤ (calculate_true_metrics boxes ym).precision ∧
      (calculate_true_metrics boxes ym).precision ≤ 1 ∧
    0 ≤ (calculate_true_metrics boxes ym).«recall» ∧
      (calculate_true_metrics boxes ym).«recall» ≤ 1 ∧
    0 ≤ (calculate_true_metrics boxes ym).f1_score ∧
      (calculate_true_metrics boxes ym).f1_score ≤ 1 ∧
    0 ≤ (calculate_true_metrics boxes ym).false_positive_rate ∧
      (calculate_true_metrics boxes ym).false_positive_rate ≤ 100 := by
  rw [calculate_true_metrics]
  by_cases h : (verifiedOf boxes).isEmpty
  · simp [h]
  · simp only [h, Bool.false_eq_true, if_false]
    refine ⟨?_, ?_, ?_, ?_, ?_, ?_, ?_, ?_⟩
    · exact roundTo_nonneg 3 (precisionOf_mem boxes).1
    · exact roundTo_le_one 3 (precisionOf_mem boxes).2
    · exact roundTo_nonneg 3 (recallOf_mem boxes).1
    · exact roundTo_le_one 3 (recallOf_mem boxes).2
    · exact roundTo_nonneg 3 (f1Of_mem boxes).1
    · exact roundTo_le_one 3 (f1Of_mem boxes).2
    · exact roundTo_nonneg 1 (fpRateOf_mem boxes).1
    · exact roundTo_le_hundred 1 (fpRateOf_mem boxes).2

/-- C10: TP + FP never exceeds total_verified; a verified box that is
manual and marked incorrect contributes to total_verified but to neither
count. -/
theorem tp_fp_le_total_verified (boxes : List GTBox) (ym : YoloMetrics) :
    (calculate_true_metrics boxes ym).true_positives +
      (calculate_true_metrics boxes ym).false_positives ≤
      (calculate_true_metrics boxes ym).total_verified := by
  rw [calculate_true_metrics]
  by_cases h : (verifiedOf boxes).isEmpty
  · simp [h]
  · simp only [h, Bool.false_eq_true, if_false]
    exact tp_add_fp_le_tv boxes

/-! ### Batch abort behavior (claim C1) -/

lemma splitLastOn_isSome_of_contains {sep : List Char} :
    ∀ {zs : List Char}, containsSub sep zs = true → (splitLastOn sep zs).isSome = true := by
  intro zs
  induction zs with
  | nil =>
    intro h
    simp only [containsSub] at h
    simp [splitLastOn, h]
  | cons c rest ih =>
    intro h
    rw [splitLastOn]
    cases hs : splitLastOn sep rest with
    | some pr => rfl
    | none =>
      have hrest : containsSub sep rest = false := by
        by_contra hc
        have := ih (by simpa using Bool.of_not_eq_false hc)
        rw [hs] at this
        simp at this
      simp only [containsSub, hrest, Bool.or_false] at h
      simp [h]

/-- A correction aborts the loop exactly when it is a hard failure:
`_box_` present but trailing segment rejected by `int()`. -/
lemma applyCorrection_eq_none_iff (imgs : List ImageRecord) (v : BoxValidation) :
    applyCorrection imgs v = none ↔ hardFail v = true := by
  rw [applyCorrection, hardFail]
  by_cases hc : containsSub sepList v.box_id
  · cases hs : splitLastOn sepList v.box_id with
    | none =>
      have := splitLastOn_isSome_of_contains hc
      rw [hs] at this
      simp at this
    | some pr =>
      obtain ⟨pre, post⟩ := pr
      cases hp : parseInt post with
      | none => simp [hc, hs, hp]
      | some n => simp [hc, hs, hp]
  · have hs : splitLastOn sepList v.box_id = none :=
      splitLastOn_of_not_contains _ (by simpa using hc)
    simp [hc, hs]

lemma applyBatch_none_of_hardFail :
    ∀ (vs : List BoxValidation) (imgs : List ImageRecord),
      (∃ v ∈ vs, hardFail v = true) → applyBatch imgs vs = none := by
  intro vs
  induction vs with
  | nil =>
    intro imgs h
    obtain ⟨v, hv, _⟩ := h
    exact absurd hv (List.not_mem_nil v)
  | cons w ws ih =>
    intro imgs h
    rw [applyBatch]
    cases hcor : applyCorrection imgs w with
    | none => rfl
    | some imgs' =>
      obtain ⟨v, hv, hf⟩ := h
      rcases List.mem_cons.mp hv with he | ht
      · subst he
        rw [(applyCorrection_eq_none_iff imgs v).mpr hf] at hcor
        cases hcor
      · exact ih imgs' ⟨v, ht, hf⟩

/-- C1 amended: a batch containing a correction whose box_id has the
`_box_` separator but a trailing segment `int()` rejects aborts the whole
request, leaving the stored session unchanged. -/
theorem batch_hard_abort (s : Session) (vs : List BoxValidation)
    (h : ∃ v ∈ vs, hardFail v = true) :
    validateDetections s vs = s := by
  rw [validateDetections, applyBatch_none_of_hardFail vs s.images h]

/-- C1 amended witness: a one-element batch with box id `img_box_x`
leaves the example session untouched. -/
theorem batch_hard_abort_witness :
    (∃ v ∈ [vBadInt], hardFail v = true) ∧
      validateDetections exSession1 [vBadInt] = exSession1 :=
  ⟨⟨vBadInt, by simp, by decide⟩,
    batch_hard_abort exSession1 [vBadInt] ⟨vBadInt, by simp, by decide⟩⟩

/-- C1 counterexample: a batch pairing one valid correction with one
whose parsed image id `nope` matches no image is NOT rejected — the
valid part is applied and persisted, so the stored session differs,
contradicting the claimed all-or-nothing hard failure. -/
theorem batch_soft_skip_counterexample :
    splitLastOn sepList vNoImage.box_id = some (['n', 'o', 'p', 'e'], ['0']) ∧
      (∀ img ∈ exSession1.images, ¬ img.image_id = ['n', 'o', 'p', 'e']) ∧
      validateDetections exSession1 [vGood, vNoImage] ≠ exSession1 := by
  refine ⟨by decide, by decide, fun h => ?_⟩
  have h2 := congrArg Session.images h
  have e : applyBatch exSession1.images [vGood, vNoImage] = some exImages1' := by
    decide
  rw [validateDetections, e] at h2
  exact absurd h2 (by decide)

/-! ### Idempotence of corrections (claim C5) -/

lemma applyValidationToBox_box_id (v : BoxValidation) (b : GTBox) :
    (applyValidationToBox v b).box_id = b.box_id := rfl

lemma applyValidationToBox_idem (v : BoxValidation) (b : GTBox) :
    applyValidationToBox v (applyValidationToBox v b) = applyValidationToBox v b := by
  cases hco : v.confidence_override <;> by_cases hn : notesTruthy v.notes <;>
    simp [applyValidationToBox, hco, hn]

lemma updateFirstBox_idem (v : BoxValidation) :
    ∀ bs : List GTBox, (updateFirstBox v (updateFirstBox v bs).1).1 = (updateFirstBox v bs).1 := by
  intro bs
  induction bs with
  | nil => rfl
  | cons b rest ih =>
    by_cases hb : b.box_id = some v.box_id
    · simp [updateFirstBox, hb, applyValidationToBox_box_id, applyValidationToBox_idem]
    · simp [updateFirstBox, hb, ih]

lemma updateSessionImages_idem (tgt : List Char) (v : BoxValidation) :
    ∀ imgs : List ImageRecord,
      updateSessionImages tgt v (updateSessionImages tgt v imgs) =
        updateSessionImages tgt v imgs := by
  intro imgs
  induction imgs with
  | nil => rfl
  | cons img rest ih =>
    by_cases hi : img.image_id = tgt
    · simp [updateSessionImages, hi, updateFirstBox_idem]
    · simp [updateSessionImages, hi, ih]

/-- `applyCorrection` computed by cases on the shape of the box id.
The three equations mirror the silent fall-through, the abort, and the
update paths of the loop body. -/
lemma applyCorrection_cases (imgs : List ImageRecord) (v : BoxValidation) :
    (containsSub sepList v.box_id = false → applyCorrection imgs v = some imgs) ∧
    (∀ pre post, containsSub sepList v.box_id = true →
      splitLastOn sepList v.box_id = some (pre, post) → parseInt post = none →
      applyCorrection imgs v = none) ∧
    (∀ pre post n, containsSub sepList v.box_id = true →
      splitLastOn sepList v.box_id = some (pre, post) → parseInt post = some n →
      applyCorrection imgs v = some (updateSessionImages pre v imgs)) := by
  refine ⟨fun hc => ?_, fun pre post hc hs hp => ?_, fun pre post n hc hs hp => ?_⟩
  · simp [applyCorrection, hc]
  · simp [applyCorrection, hc, hs, hp]
  · simp [applyCorrection, hc, hs, hp]

/-- Every successful correction either left the list unchanged or ran
`updateSessionImages`. -/
lemma applyCorrection_eq_some {imgs imgs' : List ImageRecord} {v : BoxValidation}
    (h : applyCorrection imgs v = some imgs') :
    imgs' = imgs ∨
      ∃ pre post n, containsSub sepList v.box_id = true ∧
        splitLastOn sepList v.box_id = some (pre, post) ∧ parseInt post = some n ∧
        imgs' = updateSessionImages pre v imgs := by
  by_cases hc : containsSub sepList v.box_id
  · cases hs : splitLastOn sepList v.box_id with
    | none =>
      have := splitLastOn_isSome_of_contains hc
      rw [hs] at this
      simp at this
    | some pr =>
      obtain ⟨pre, post⟩ := pr
      cases hp : parseInt post with
      | none =>
        rw [(applyCorrection_cases imgs v).2.1 pre post hc hs hp] at h
        cases h
      | some n =>
        rw [(applyCorrection_cases imgs v).2.2 pre post n hc hs hp] at h
        right
        exact ⟨pre, post, n, hc, rfl, hp, (Option.some.inj h).symm⟩
  · rw [(applyCorrection_cases imgs v).1 (by simpa using hc)] at h
    left
    exact (Option.some.inj h).symm

lemma applyCorrection_idem {imgs imgs' : List ImageRecord} {v : BoxValidation}
    (h : applyCorrection imgs v = some imgs') : applyCorrection imgs' v = some imgs' := by
  rcases applyCorrection_eq_some h with he | ⟨pre, post, n, hc, hs, hp, he⟩
  · subst he
    exact h
  · rw [(applyCorrection_cases imgs' v).2.2 pre post n hc hs hp, he,
      updateSessionImages_idem]

lemma applyBatch_single {imgs imgs' : List ImageRecord} {v : BoxValidation} :
    applyBatch imgs [v] = some imgs' ↔ applyCorrection imgs v = some imgs' := by
  rw [applyBatch]
  cases hc : applyCorrection imgs v <;> simp [applyBatch]

lemma updateSessionImages_yolo (tgt : List Char) (v : BoxValidation) :
    ∀ imgs : List ImageRecord,
      (updateSessionImages tgt v imgs).map (fun i => i.yolo_metrics) =
        imgs.map (fun i => i.yolo_metrics) := by
  intro imgs
  induction imgs with
  | nil => rfl
  | cons img rest ih =>
    by_cases hi : img.image_id = tgt <;> simp [updateSessionImages, hi, ih]

lemma lastYolo_congr (l₁ l₂ : List ImageRecord)
    (h : l₁.map (fun i => i.yolo_metrics) = l₂.map (fun i => i.yolo_metrics)) :
    lastYolo l₁ = lastYolo l₂ := by
  have h2 := congrArg List.getLast? h
  rw [List.getLast?_map, List.getLast?_map] at h2
  cases e₁ : l₁.getLast? with
  | none =>
    cases e₂ : l₂.getLast? with
    | none => rw [lastYolo, lastYolo, e₁, e₂]
    | some i₂ => rw [e₁, e₂] at h2; simp at h2
  | some i₁ =>
    cases e₂ : l₂.getLast? with
    | none => rw [e₁, e₂] at h2; simp at h2
    | some i₂ =>
      rw [e₁, e₂] at h2
      rw [lastYolo, lastYolo, e₁, e₂]
      simpa using h2

lemma applyCorrection_lastYolo {imgs imgs' : List ImageRecord} {v : BoxValidation}
    (h : applyCorrection imgs v = some imgs') : lastYolo imgs' = lastYolo imgs := by
  rcases applyCorrection_eq_some h with he | ⟨pre, _, _, _, _, _, he⟩
  · rw [he]
  · rw [he]
    exact lastYolo_congr _ _ (updateSessionImages_yolo pre v imgs)

/-- C5 amended: applying an identical correction twice — duplicated
within one batch, or repeated across two consecutive requests — yields
the same stored state as applying it once.  (The last-write-wins half of
the original claim fails; see the counterexample.) -/
theorem correction_idempotent (imgs : List ImageRecord) (s : Session) (v : BoxValidation) :
    applyBatch imgs [v, v] = applyBatch imgs [v] ∧
      validateDetections (validateDetections s [v]) [v] = validateDetections s [v] := by
  constructor
  · cases hc : applyCorrection imgs v with
    | none =>
      have l1 : applyBatch imgs [v, v] = none := by rw [applyBatch, hc]
      have l2 : applyBatch imgs [v] = none := by rw [applyBatch, hc]
      rw [l1, l2]
    | some imgs' =>
      have l1 : applyBatch imgs [v, v] = applyBatch imgs' [v] := by rw [applyBatch, hc]
      have l2 : applyBatch imgs [v] = some imgs' := applyBatch_single.mpr hc
      rw [l1, l2]
      exact applyBatch_single.mpr (applyCorrection_idem hc)
  · cases hb : applyBatch s.images [v] with
    | none =>
      have h1 : validateDetections s [v] = s := by rw [validateDetections, hb]
      rw [h1, h1]
    | some imgs' =>
      have hcor : applyCorrection s.images v = some imgs' := applyBatch_single.mp hb
      have h1 : validateDetections s [v] =
          { session_id := s.session_id, images := imgs',
            true_metrics := some (calculate_true_metrics (allBoxes imgs') (lastYolo s.images)) } := by
        rw [validateDetections, hb]
      have hb2 : applyBatch imgs' [v] = some imgs' :=
        applyBatch_single.mpr (applyCorrection_idem hcor)
      rw [h1, validateDetections]
      simp only [hb2]
      rw [applyCorrection_lastYolo hcor]

/-- C5 counterexample: two batches ending in the same correction for the
same box disagree, because the earlier correction's confidence override
survives a later correction that omits one — the final state does not
depend only on the last write. -/
theorem last_write_counterexample :
    (applyBatch exImages5 [vA, vB]).isSome = true ∧
      (applyBatch exImages5 [vB]).isSome = true ∧
      applyBatch exImages5 [vA, vB] ≠ applyBatch exImages5 [vB] := by
  refine ⟨by decide, by decide, by decide⟩

/-! ### Effect of a matched correction (claim C7) -/

/-- C7 amended: when a correction matches — all boxes before the match
point have a different stored id and the matched box carries the exact
id — the loop replaces exactly that box, setting is_verified to true,
is_correct to the given value, overwriting confidence only when an
override is supplied and notes only when non-empty notes are supplied;
the verification timestamp is NOT touched (the loop body never writes
`verified_at`). -/
theorem matched_correction_updates_box (v : BoxValidation) :
    ∀ (pre post : List GTBox) (b : GTBox),
      (∀ p ∈ pre, p.box_id ≠ some v.box_id) → b.box_id = some v.box_id →
      (updateFirstBox v (pre ++ b :: post)).1 = pre ++ applyValidationToBox v b :: post ∧
      (applyValidationToBox v b).is_verified = true ∧
      (applyValidationToBox v b).is_correct = v.is_correct ∧
      (applyValidationToBox v b).confidence =
        (match v.confidence_override with | some c => c | none => b.confidence) ∧
      (applyValidationToBox v b).notes =
        (if notesTruthy v.notes then v.notes else b.notes) ∧
      (applyValidationToBox v b).verified_at = b.verified_at := by
  intro pre
  induction pre with
  | nil =>
    intro post b _ hb
    refine ⟨?_, rfl, rfl, rfl, rfl, rfl⟩
    simp [updateFirstBox, hb]
  | cons p pre' ih =>
    intro post b hpre hb
    have hp : p.box_id ≠ some v.box_id := hpre p (List.mem_cons_self p pre')
    have ihp := ih post b (fun q hq => hpre q (List.mem_cons_of_mem p hq)) hb
    refine ⟨?_, rfl, rfl, rfl, rfl, rfl⟩
    simp only [List.cons_append, updateFirstBox, if_neg hp]
    exact congrArg (fun l => p :: l) ihp.1

/-- C7 amended witness: vB matches the second box of `[boxOther, boxMain]`. -/
theorem matched_correction_updates_box_witness :
    (∀ p ∈ [boxOther], p.box_id ≠ some vB.box_id) ∧
      boxMain.box_id = some vB.box_id ∧
      (updateFirstBox vB ([boxOther] ++ boxMain :: [])).1 =
        [boxOther] ++ applyValidationToBox vB boxMain :: [] :=
  ⟨by decide, by decide,
    (matched_correction_updates_box vB [boxOther] [] boxMain (by decide) (by decide)).1⟩

/-- C7 counterexample: a matched correction flips is_verified to true but
leaves `verified_at` at none — no verification timestamp is recorded,
contrary to the claim. -/
theorem verification_timestamp_counterexample :
    exImages5.map (fun i => i.boxes.map (fun b => (b.is_verified, b.verified_at))) =
      [[(false, none)]] ∧
      (applyBatch exImages5 [vB]).map
          (fun l => l.map (fun i => i.boxes.map (fun b => (b.is_verified, b.verified_at)))) =
        some [[(true, none)]] := by
  exact ⟨by decide, by decide⟩

/-! ### add_manual_box (claim C8) -/

/-- C8: `add_manual_box` fails with ImageNotFound when no image matches;
otherwise the first matching image — and only it — gets exactly one
appended box whose id is `<image_id>_box_<current box count>` with
is_manual, is_verified and is_correct all true, and that id is
returned. -/
theorem add_manual_spec (image_id : List Char) (box : GTBox) :
    (∀ imgs : List ImageRecord, (∀ img ∈ imgs, img.image_id ≠ image_id) →
      addManualImages image_id box imgs = none) ∧
    (∀ (pre post : List ImageRecord) (img : ImageRecord),
      (∀ p ∈ pre, p.image_id ≠ image_id) → img.image_id = image_id →
      addManualImages image_id box (pre ++ img :: post) =
        some (pre ++
          { img with boxes := img.boxes ++ [manualizeBox box image_id img.boxes.length] }
            :: post,
          formatBoxId image_id img.boxes.length)) := by
  constructor
  · intro imgs
    induction imgs with
    | nil => intro _; rfl
    | cons i rest ih =>
      intro h
      have hi : i.image_id ≠ image_id := h i (List.mem_cons_self i rest)
      simp only [addManualImages, if_neg hi]
      rw [ih (fun q hq => h q (List.mem_cons_of_mem i hq))]
      rfl
  · intro pre
    induction pre with
    | nil =>
      intro post img _ hi
      simp [addManualImages, hi]
    | cons p pre' ih =>
      intro post img hpre hi
      have hp : p.image_id ≠ image_id := hpre p (List.mem_cons_self p pre')
      have ihp := ih post img (fun q hq => hpre q (List.mem_cons_of_mem p hq)) hi
      simp only [List.cons_append, addManualImages, if_neg hp]
      exact (congrArg (Option.map (fun r => (p :: r.1, r.2))) ihp).trans rfl

/-- C8 witness: no image `z` exists (ImageNotFound), and adding to `img`
(two existing boxes) appends `img_box_2` to it alone. -/
theorem add_manual_spec_witness :
    (∀ img ∈ exImagesTwo, img.image_id ≠ ['z']) ∧
      addManualImages ['z'] manualUnverified exImagesTwo = none ∧
      (∀ p ∈ [imgA], p.image_id ≠ idImg) ∧ imgI.image_id = idImg ∧
      addManualImages idImg manualUnverified ([imgA] ++ imgI :: []) =
        some ([imgA] ++
          { imgI with
            boxes := imgI.boxes ++ [manualizeBox manualUnverified idImg imgI.boxes.length] }
            :: [],
          formatBoxId idImg imgI.boxes.length) :=
  ⟨by decide, (add_manual_spec ['z'] manualUnverified).1 exImagesTwo (by decide),
    by decide, by decide,
    (add_manual_spec idImg manualUnverified).2 [imgA] [] imgI (by decide) (by decide)⟩

/-! ### delete_box (claim C9) -/

lemma filter_ne_length (box_id : List Char) :
    ∀ l : List GTBox,
      (l.filter (fun b => ¬ b.box_id = some box_id)).length +
        l.countP (fun b => b.box_id = some box_id) = l.length := by
  intro l
  induction l with
  | nil => rfl
  | cons b t ih =>
    simp only [decide_not] at ih ⊢
    by_cases hb : b.box_id = some box_id <;>
      simp [List.filter_cons, List.countP_cons, hb] <;> omega

lemma filter_ne_idem (box_id : List Char) :
    ∀ l : List GTBox,
      (l.filter (fun b => ¬ b.box_id = some box_id)).filter
          (fun b => ¬ b.box_id = some box_id) =
        l.filter (fun b => ¬ b.box_id = some box_id) := by
  intro l
  induction l with
  | nil => rfl
  | cons b t ih =>
    by_cases hb : b.box_id = some box_id <;> simp [List.filter_cons, hb, ih]

/-- C9 amended: delete on an absent image fails with ImageNotFound; when
the target image holds exactly one box bearing the id, the first delete
removes exactly that box (count drops by exactly 1) and a second delete
with the same id fails with BoxNotFound.  (With duplicated ids the list
comprehension removes all of them; see the counterexample.) -/
theorem delete_box_spec (image_id box_id : List Char) :
    (∀ imgs : List ImageRecord, (∀ img ∈ imgs, img.image_id ≠ image_id) →
      deleteBox image_id box_id imgs = .error .imageNotFound) ∧
    (∀ (pre post : List ImageRecord) (img : ImageRecord),
      (∀ p ∈ pre, p.image_id ≠ image_id) → img.image_id = image_id →
      img.boxes.countP (fun b => b.box_id = some box_id) = 1 →
      deleteBox image_id box_id (pre ++ img :: post) =
        .ok (pre ++ { img with
            boxes := img.boxes.filter (fun b => ¬ b.box_id = some box_id) } :: post) ∧
      (img.boxes.filter (fun b => ¬ b.box_id = some box_id)).length + 1 =
        img.boxes.length ∧
      deleteBox image_id box_id (pre ++ { img with
          boxes := img.boxes.filter (fun b => ¬ b.box_id = some box_id) } :: post) =
        .error .boxNotFound) := by
  constructor
  · intro imgs
    induction imgs with
    | nil => intro _; rfl
    | cons i rest ih =>
      intro h
      have hi : i.image_id ≠ image_id := h i (List.mem_cons_self i rest)
      simp only [deleteBox, if_neg hi]
      rw [ih (fun q hq => h q (List.mem_cons_of_mem i hq))]
      rfl
  · intro pre
    induction pre with
    | nil =>
      intro post img _ hi hcount
      have hlen := filter_ne_length box_id img.boxes
      rw [hcount] at hlen
      have hlt : (img.boxes.filter (fun b => ¬ b.box_id = some box_id)).length <
          img.boxes.length := by omega
      refine ⟨?_, hlen, ?_⟩
      · simp only [List.nil_append, deleteBox, if_pos hi]
        rw [if_pos hlt]
      · simp only [List.nil_append, deleteBox]
        rw [if_pos hi, filter_ne_idem, if_neg (lt_irrefl _)]
    | cons p pre' ih =>
      intro post img hpre hi hcount
      have hp : p.image_id ≠ image_id := hpre p (List.mem_cons_self p pre')
      have ihp := ih post img (fun q hq => hpre q (List.mem_cons_of_mem p hq)) hi hcount
      refine ⟨?_, ihp.2.1, ?_⟩
      · simp only [List.cons_append, deleteBox, if_neg hp]
        exact (congrArg (Except.map (fun l => p :: l)) ihp.1).trans rfl
      · simp only [List.cons_append, deleteBox, if_neg hp]
        exact (congrArg (Except.map (fun l => p :: l)) ihp.2.2).trans rfl

/-- C9 witness: deleting `img_box_0` from `img` (unique id, two boxes)
drops the count from 2 to 1, and a repeat fails with BoxNotFound; a
delete addressing image `z` fails with ImageNotFound. -/
theorem delete_box_spec_witness :
    (∀ img ∈ exImagesTwo, img.image_id ≠ ['z']) ∧
      deleteBox ['z'] (formatBoxId idImg 0) exImagesTwo = .error .imageNotFound ∧
      (∀ p ∈ [imgA], p.image_id ≠ idImg) ∧ imgI.image_id = idImg ∧
      imgI.boxes.countP (fun b => b.box_id = some (formatBoxId idImg 0)) = 1 ∧
      deleteBox idImg (formatBoxId idImg 0) ([imgA] ++ imgI :: []) =
        .ok ([imgA] ++ { imgI with
            boxes := imgI.boxes.filter
              (fun b => ¬ b.box_id = some (formatBoxId idImg 0)) } :: []) :=
  ⟨by decide,
    (delete_box_spec ['z'] (formatBoxId idImg 0)).1 exImagesTwo (by decide),
    by decide, by decide, by decide,
    ((delete_box_spec idImg (formatBoxId idImg 0)).2 [imgA] [] imgI
      (by decide) (by decide) (by decide)).1⟩

/-- C9 counterexample: when two boxes of an image share the id
`img_box_1`, the first delete removes both — the box count drops from 2
to 0, not by exactly 1. -/
theorem delete_duplicate_counterexample :
    exImagesDup.map (fun i => i.boxes.length) = [2] ∧
      deleteBox idImg (formatBoxId idImg 1) exImagesDup =
        .ok [{ image_id := idImg, boxes := [], yolo_metrics := {} }] := by
  exact ⟨by decide, by decide⟩
